import Mathlib

/-!
Verification of the game-state engine of a falling-block puzzle game.

The definitions below are a shallow embedding of the engine's source:
the board is a list of rows of optional color tokens, shapes are 0/1
occupancy matrices, and every stateful routine of the source component
becomes an explicit function from a `GameState` (plus the results of the
random piece generator, passed in as oracle arguments) to the next
`GameState`.  State reads inside an event handler see the state values
bound at the start of the handler, so routines that the source calls in
sequence within one handler read the values from before the handler ran;
the embedding passes those stale values explicitly where the source
relies on them (the board used for spawn validation after a lock, and
the cumulative line count used for the level computation).
-/

abbrev Cell := Option String

abbrev Board := List (List Cell)

abbrev Shape := List (List Nat)

structure Pos where
  x : Int
  y : Int
  deriving DecidableEq, Repr

structure Tetromino where
  type : String
  shape : Shape
  color : String
  deriving DecidableEq, Repr

def BOARD_WIDTH : Nat := 10

def BOARD_HEIGHT : Nat := 20

def INITIAL_SPEED : Nat := 1000

def MIN_SPEED : Nat := 100

/-- The `I` entry of the shape catalog. -/
def tetrominoI : Tetromino := { type := "I", shape := [[1, 1, 1, 1]], color := "#00f0f0" }

/-- The `O` entry of the shape catalog. -/
def tetrominoO : Tetromino := { type := "O", shape := [[1, 1], [1, 1]], color := "#f0f000" }

/-- The `T` entry of the shape catalog. -/
def tetrominoT : Tetromino := { type := "T", shape := [[0, 1, 0], [1, 1, 1]], color := "#a000f0" }

/-- The `S` entry of the shape catalog. -/
def tetrominoS : Tetromino := { type := "S", shape := [[0, 1, 1], [1, 1, 0]], color := "#00f000" }

/-- The `Z` entry of the shape catalog. -/
def tetrominoZ : Tetromino := { type := "Z", shape := [[1, 1, 0], [0, 1, 1]], color := "#f00000" }

/-- The `J` entry of the shape catalog. -/
def tetrominoJ : Tetromino := { type := "J", shape := [[1, 0, 0], [1, 1, 1]], color := "#0000f0" }

/-- The `L` entry of the shape catalog. -/
def tetrominoL : Tetromino := { type := "L", shape := [[0, 0, 1], [1, 1, 1]], color := "#f0a000" }

/-- Empty row of the board (`Array(BOARD_WIDTH).fill(null)`). -/
def createEmptyRow : List Cell := List.replicate BOARD_WIDTH none

/-- `createEmptyBoard`: a `BOARD_HEIGHT` by `BOARD_WIDTH` grid of empty cells. -/
def createEmptyBoard : Board := List.replicate BOARD_HEIGHT createEmptyRow

/-- `rotatePiece`'s shape transform: one new row per index of the first old
row, where the new row `i` is the old column `i` read bottom-to-top
(`piece.shape[0].map((_, i) => piece.shape.map(row => row[i]).reverse())`).
An out-of-range read (`row[i]` past the row's end) is an unoccupied cell. -/
def rotateShape (shape : Shape) : Shape :=
  (List.range (shape.headD []).length).map fun i =>
    (shape.map fun row => row.getD i 0).reverse

/-- `rotatePiece`: same piece with the rotated shape. -/
def rotatePiece (piece : Tetromino) : Tetromino :=
  { piece with shape := rotateShape piece.shape }

/-- Read a board cell at integer coordinates; coordinates off the stored
grid read as empty. -/
def boardCell (board : Board) (y x : Int) : Cell :=
  if 0 ≤ y ∧ 0 ≤ x then (board.getD y.toNat []).getD x.toNat none else none

/-- `isValidPosition`: every occupied shape cell must land in a column
inside `[0, BOARD_WIDTH)`, in a row below `BOARD_HEIGHT`, and (when its row
is nonnegative) on an unoccupied board cell.  Rows above the board
(negative) are allowed. -/
def isValidPosition (board : Board) (piece : Tetromino) (pos : Pos) : Bool :=
  (List.range piece.shape.length).all fun y =>
    (List.range ((piece.shape.getD y []).length)).all fun x =>
      if (piece.shape.getD y []).getD x 0 ≠ 0 then
        let newX : Int := pos.x + x
        let newY : Int := pos.y + y
        !(decide (newX < 0) || decide ((BOARD_WIDTH : Int) ≤ newX) ||
          decide ((BOARD_HEIGHT : Int) ≤ newY) ||
          (decide ((0 : Int) ≤ newY) && (boardCell board newY newX).isSome))
      else
        true

/-- The `while (isValidPosition(piece, {x, y+1})) y++` loop shared by the
ghost projection and the hard drop, written with explicit fuel; the fuel
below (`ghostFuel`) is enough for every start the validator accepts for a
piece with at least one occupied cell, because accepted rows are bounded
by the board height. -/
def ghostLoop (board : Board) (piece : Tetromino) (x : Int) : Nat → Int → Int
  | 0, y => y
  | fuel + 1, y =>
    if isValidPosition board piece ⟨x, y + 1⟩ then ghostLoop board piece x fuel (y + 1) else y

/-- Fuel bound for the descent loops starting at `pos`. -/
def ghostFuel (pos : Pos) : Nat := ((BOARD_HEIGHT : Int) + 1 - pos.y).toNat

/-- `calculateGhostPosition`: keep the column, descend the row while the
one-lower position stays valid. -/
def calculateGhostPosition (board : Board) (piece : Tetromino) (pos : Pos) : Pos :=
  ⟨pos.x, ghostLoop board piece pos.x (ghostFuel pos) pos.y⟩

/-- The descent loop of `hardDrop`, which additionally counts the rows
fallen (`dropDistance`). -/
def hardDropLoop (board : Board) (piece : Tetromino) (x : Int) : Nat → Int → Nat → Int × Nat
  | 0, y, dist => (y, dist)
  | fuel + 1, y, dist =>
    if isValidPosition board piece ⟨x, y + 1⟩ then
      hardDropLoop board piece x fuel (y + 1) (dist + 1)
    else
      (y, dist)

/-- Resting position and drop distance computed by `hardDrop`'s loop. -/
def hardDropRest (board : Board) (piece : Tetromino) (pos : Pos) : Pos × Nat :=
  let r := hardDropLoop board piece pos.x (ghostFuel pos) pos.y 0
  (⟨pos.x, r.1⟩, r.2)

/-- The occupied cells of a shape, in the visit order of `mergePiece`'s
nested loops: row-major over the shape's indices, keeping only cells
holding a nonzero entry. -/
def occupiedCells (s : Shape) : List (Nat × Nat) :=
  (List.range s.length).flatMap fun y =>
    ((List.range ((s.getD y []).length)).filter fun x =>
      decide ((s.getD y []).getD x 0 ≠ 0)).map fun x => (y, x)

/-- Write one board cell; writes addressed off the stored grid change
nothing (the source's array write to such an index touches no grid cell). -/
def setCell (b : Board) (y x : Int) (color : String) : Board :=
  if 0 ≤ y ∧ 0 ≤ x then
    b.set y.toNat ((b.getD y.toNat []).set x.toNat (some color))
  else
    b

/-- The board update of `mergePiece`: every occupied shape cell whose
absolute row `position.y + y` is nonnegative is written with the piece's
color. -/
def mergeBoard (board : Board) (piece : Tetromino) (pos : Pos) : Board :=
  (occupiedCells piece.shape).foldl
    (fun b yx =>
      if 0 ≤ pos.y + (yx.1 : Int) then setCell b (pos.y + yx.1) (pos.x + yx.2) piece.color else b)
    board

/-- `row.every(cell => cell !== null)`. -/
def rowFull (row : List Cell) : Bool := row.all fun cell => cell.isSome

/-- The first half of `checkLines`: drop every full row (counting them),
then prepend empty rows until the height is `BOARD_HEIGHT` again. -/
def clearFullRows (b : Board) : Board × Nat :=
  let kept := b.filter fun row => !(rowFull row)
  (List.replicate (BOARD_HEIGHT - kept.length) createEmptyRow ++ kept,
   b.countP fun row => rowFull row)

structure GameState where
  board : Board
  currentPiece : Option Tetromino
  position : Pos
  nextPiece : Option Tetromino
  heldPiece : Option Tetromino
  canHold : Bool
  score : Nat
  level : Nat
  lines : Nat
  gameOver : Bool
  paused : Bool
  gameStarted : Bool
  speed : Nat
  combo : Nat
  ghostPosition : Pos
  deriving DecidableEq, Repr

/-- The initial values of the state fields at mount time. -/
def initialState : GameState where
  board := createEmptyBoard
  currentPiece := none
  position := ⟨0, 0⟩
  nextPiece := none
  heldPiece := none
  canHold := true
  score := 0
  level := 1
  lines := 0
  gameOver := false
  paused := false
  gameStarted := false
  speed := INITIAL_SPEED
  combo := 0
  ghostPosition := ⟨0, 0⟩

/-- Base points per number of lines cleared in one lock. -/
def scoreTable : List Nat := [0, 100, 300, 500, 800]

/-- `checkLines(currentBoard)`: clear full rows; when at least one row was
cleared, commit the compacted board, add the cleared count to the
cumulative lines, increment the combo, and add
`(base + newCombo * 50) * level` to the score; then recompute the level.
The level is recomputed from `st.lines`, the cumulative count bound when
the handler started — the addition of `linesCleared` queued just above is
not visible to this read — so the level test uses the pre-clear total.
When nothing was cleared, only the combo resets. -/
def checkLines (st : GameState) (currentBoard : Board) : GameState :=
  let cleared := clearFullRows currentBoard
  let newBoard := cleared.1
  let linesCleared := cleared.2
  if 0 < linesCleared then
    let newCombo := st.combo + 1
    let basePoints := scoreTable.getD linesCleared 0
    let comboBonus := newCombo * 50
    let levelBonus := st.level
    let newLevel := st.lines / 10 + 1
    let st1 := { st with
      board := newBoard
      lines := st.lines + linesCleared
      combo := newCombo
      score := st.score + (basePoints + comboBonus) * levelBonus }
    if newLevel ≠ st.level then
      { st1 with level := newLevel, speed := max MIN_SPEED (INITIAL_SPEED - (newLevel - 1) * 100) }
    else
      st1
  else
    { st with combo := 0 }

/-- `mergePiece`: no-op without an active piece; otherwise write the piece
into the board, run `checkLines` on the written board, and re-enable hold. -/
def mergePiece (st : GameState) : GameState :=
  match st.currentPiece with
  | none => st
  | some piece =>
    let newBoard := mergeBoard st.board piece st.position
    let st1 := checkLines { st with board := newBoard } newBoard
    { st1 with canHold := true }

/-- Spawn x column: `floor(BOARD_WIDTH / 2) - floor(shape[0].length / 2)`. -/
def spawnStartX (shape : Shape) : Int :=
  ((BOARD_WIDTH / 2 : Nat) : Int) - (((shape.headD []).length / 2 : Nat) : Int)

/-- `spawnNewPiece`, with the board used for validation and ghost
computation passed explicitly: inside one handler the source validates
against the board value bound when the handler started, which after a
lock is the pre-merge board.  `fresh` and `newNext` are the two draws of
the random generator. -/
def spawnOnBoard (checkBoard : Board) (st : GameState) (fresh newNext : Tetromino) : GameState :=
  let piece := st.nextPiece.getD fresh
  let startX := spawnStartX piece.shape
  let startY : Int := 0
  if !(isValidPosition checkBoard piece ⟨startX, startY⟩) then
    { st with gameOver := true }
  else
    { st with
      currentPiece := some piece
      position := ⟨startX, startY⟩
      nextPiece := some newNext
      ghostPosition := calculateGhostPosition checkBoard piece ⟨startX, startY⟩ }

/-- `spawnNewPiece` reading the state's own board (the fresh-context call
sites: start of a game and hold with an empty hold slot). -/
def spawnNewPiece (st : GameState) (fresh newNext : Tetromino) : GameState :=
  spawnOnBoard st.board st fresh newNext

/-- `moveDown`: no-op without an active piece or when over or paused; move
one row down when the validator accepts; otherwise lock and spawn.  The
spawn after a lock validates against the pre-merge board binding. -/
def moveDown (st : GameState) (fresh newNext : Tetromino) : GameState :=
  if st.currentPiece.isNone || st.gameOver || st.paused then st else
  match st.currentPiece with
  | none => st
  | some piece =>
    let newPos : Pos := ⟨st.position.x, st.position.y + 1⟩
    if isValidPosition st.board piece newPos then
      { st with position := newPos, ghostPosition := calculateGhostPosition st.board piece newPos }
    else
      spawnOnBoard st.board (mergePiece st) fresh newNext

/-- The `ArrowDown` branch of the key handler: `moveDown()` followed by
`setScore(prev => prev + 1)` — the point is queued after whatever score
updates `moveDown` queued, with no condition attached. -/
def softDropAction (st : GameState) (fresh newNext : Tetromino) : GameState :=
  let st1 := moveDown st fresh newNext
  { st1 with score := st1.score + 1 }

/-- The wall-kick offsets, in the order the source tries them. -/
def kicks : List Pos := [⟨0, 0⟩, ⟨-1, 0⟩, ⟨1, 0⟩, ⟨0, -1⟩, ⟨-2, 0⟩, ⟨2, 0⟩]

/-- Validator test for the rotated piece at the current position displaced
by kick `k`. -/
def tryKick (st : GameState) (rotated : Tetromino) (k : Pos) : Bool :=
  isValidPosition st.board rotated ⟨st.position.x + k.x, st.position.y + k.y⟩

/-- State committed when kick `k` is accepted for the rotated piece. -/
def commitKick (st : GameState) (rotated : Tetromino) (k : Pos) : GameState :=
  { st with
    currentPiece := some rotated
    position := ⟨st.position.x + k.x, st.position.y + k.y⟩
    ghostPosition :=
      calculateGhostPosition st.board rotated ⟨st.position.x + k.x, st.position.y + k.y⟩ }

/-- `rotate`: no-op without an active piece or when over or paused;
otherwise try the rotated shape at each kick offset in order and commit
the first one the validator accepts; leave the state unchanged when every
kick fails. -/
def rotate (st : GameState) : GameState :=
  if st.currentPiece.isNone || st.gameOver || st.paused then st else
  match st.currentPiece with
  | none => st
  | some piece =>
    let rotated := rotatePiece piece
    match kicks.find? (fun k => tryKick st rotated k) with
    | some k => commitKick st rotated k
    | none => st

/-- `holdPiece`: no-op without an active piece, when hold was already used,
or when over or paused.  With a held piece: swap it with the active piece
and re-position at the spawn column, row 0.  Without one: store the active
piece and spawn the queued piece.  Both branches record hold as used. -/
def holdPiece (st : GameState) (fresh newNext : Tetromino) : GameState :=
  if st.currentPiece.isNone || !st.canHold || st.gameOver || st.paused then st else
  match st.currentPiece with
  | none => st
  | some cur =>
    match st.heldPiece with
    | some temp =>
      let startX := spawnStartX temp.shape
      { st with
        canHold := false
        heldPiece := some cur
        currentPiece := some temp
        position := ⟨startX, 0⟩
        ghostPosition := calculateGhostPosition st.board temp ⟨startX, 0⟩ }
    | none =>
      spawnOnBoard st.board { st with canHold := false, heldPiece := some cur } fresh newNext

/-- A shape with at least one occupied cell (true of all catalog shapes
and preserved by rotation). -/
def hasCell (s : Shape) : Bool :=
  (List.range s.length).any fun y =>
    (List.range ((s.getD y []).length)).any fun x => decide ((s.getD y []).getD x 0 ≠ 0)

/-- Shape cell read at natural indices, out-of-range reads being 0. -/
def shapeCell (s : Shape) (r c : Nat) : Nat := (s.getD r []).getD c 0

/-- Board cell read at natural indices. -/
def cellNat (b : Board) (r c : Nat) : Cell := (b.getD r []).getD c none

/-- Does some occupied shape cell land on board cell `(r, c)` when the
shape is anchored at `pos`? -/
def coversCell (s : Shape) (pos : Pos) (r c : Nat) : Bool :=
  (occupiedCells s).any fun yx =>
    (pos.y + (yx.1 : Int) == (r : Int)) && (pos.x + (yx.2 : Int) == (c : Int))

/-- Well-formed board: exactly `BOARD_HEIGHT` rows of `BOARD_WIDTH` cells. -/
def boardWF (b : Board) : Prop :=
  b.length = BOARD_HEIGHT ∧ ∀ row ∈ b, row.length = BOARD_WIDTH

/-- Row of ten occupied cells, used as a concrete test board row. -/
def fullRow : List Cell := List.replicate BOARD_WIDTH (some "#f00000")

/-- Concrete board whose bottom row is full and all other rows empty. -/
def boardOneFull : Board := List.replicate 19 createEmptyRow ++ [fullRow]

/-- Concrete board whose two bottom rows are full and all other rows empty. -/
def boardTwoFull : Board := List.replicate 18 createEmptyRow ++ [fullRow, fullRow]

/-- Concrete running state with nine cumulative lines, level 1, speed 1000. -/
def stLinesNine : GameState := { initialState with gameStarted := true, lines := 9 }

/-- Concrete running state whose hold was already used and whose queue holds `T`. -/
def stNoHold : GameState :=
  { initialState with gameStarted := true, canHold := false, nextPiece := some tetrominoT }

/-- Concrete running state with an active `T` piece at the spawn position. -/
def stPlaying : GameState :=
  { initialState with
    gameStarted := true
    currentPiece := some tetrominoT
    position := ⟨4, 0⟩
    ghostPosition := ⟨4, 18⟩
    nextPiece := some tetrominoI }

/-- Behaviour of one spawn attempt validated against `checkBoard`: a rejected
spawn position only sets the game-over flag, leaving the active piece, its
position, and the queue untouched; an accepted one installs the queued piece at
the centered top position and refills the queue. -/
def SpawnSpec (checkBoard : Board) (st : GameState) (fresh newNext : Tetromino) : Prop :=
  let piece := st.nextPiece.getD fresh
  let p : Pos := ⟨spawnStartX piece.shape, 0⟩
  let st' := spawnOnBoard checkBoard st fresh newNext
  if isValidPosition checkBoard piece p then
    st'.currentPiece = some piece ∧ st'.position = p ∧ st'.gameOver = st.gameOver ∧
      st'.nextPiece = some newNext
  else
    st'.gameOver = true ∧ st'.currentPiece = st.currentPiece ∧
      st'.position = st.position ∧ st'.nextPiece = st.nextPiece

/-- Score behaviour of the soft-drop key: one point is added on top of whatever
the shared move-down transition does, unconditionally; the move-down transition
itself (the gravity tick) leaves the score unchanged on an accepted step. -/
def SoftDropScoreSpec (st : GameState) (fresh newNext : Tetromino) : Prop :=
  (softDropAction st fresh newNext).score = (moveDown st fresh newNext).score + 1 ∧
  (∀ piece, st.currentPiece = some piece → st.gameOver = false → st.paused = false →
    isValidPosition st.board piece ⟨st.position.x, st.position.y + 1⟩ = true →
    (moveDown st fresh newNext).score = st.score)

/-- Hold eligibility bookkeeping: spawning leaves `canHold` unchanged, locking a
piece re-enables it, and an effective hold action disables it (in both the swap
branch and the empty-hold branch), so it stays disabled from a hold until the
next lock. -/
def HoldEligibilitySpec (st : GameState) (fresh newNext : Tetromino) : Prop :=
  (spawnNewPiece st fresh newNext).canHold = st.canHold ∧
  (st.currentPiece.isSome = true → (mergePiece st).canHold = true) ∧
  (st.currentPiece.isSome = true → st.canHold = true → st.gameOver = false → st.paused = false →
    (holdPiece st fresh newNext).canHold = false)

/-- Outcome of the rotation action on a running state with an active piece:
either every kick offset fails and the whole state is unchanged, or some kick
at index `i` is the first accepted one and exactly the rotated piece, kicked
position, and recomputed ghost are committed. -/
def RotateKickSpec (st : GameState) (piece : Tetromino) : Prop :=
  ((∀ k ∈ kicks, tryKick st (rotatePiece piece) k = false) ∧ rotate st = st) ∨
  (∃ i, ∃ h : i < kicks.length,
    tryKick st (rotatePiece piece) (kicks.get ⟨i, h⟩) = true ∧
    (∀ j, (hj : j < i) → tryKick st (rotatePiece piece) (kicks.get ⟨j, Nat.lt_trans hj h⟩) = false) ∧
    rotate st = commitKick st (rotatePiece piece) (kicks.get ⟨i, h⟩))

/-- Characterisation of one line-clearing pass: the reported count is the number
of full rows, the produced board is that many empty rows prepended to the
non-full rows in their original order, and the height is restored. -/
def ClearRowsSpec (b : Board) : Prop :=
  (clearFullRows b).2 = b.countP (fun row => rowFull row) ∧
  (clearFullRows b).1 =
    List.replicate (b.countP fun row => rowFull row) createEmptyRow ++
      b.filter (fun row => !(rowFull row)) ∧
  (clearFullRows b).1.length = BOARD_HEIGHT

/-- Score delta of a clearing lock: base points for the cleared count plus 50
per unit of the already-incremented combo, all multiplied by the level from
before any level change of this clear; the combo increments by one and the
cleared count is added to the cumulative lines. -/
def ScoreDeltaSpec (st : GameState) (b : Board) : Prop :=
  (checkLines st b).score =
    st.score +
      (scoreTable.getD (b.countP fun row => rowFull row) 0 + (st.combo + 1) * 50) * st.level ∧
  (checkLines st b).combo = st.combo + 1 ∧
  (checkLines st b).lines = st.lines + b.countP (fun row => rowFull row)

/-- The ghost projection keeps the column, never moves up, lands on a position
the validator accepts whose one-lower position it rejects, and agrees with the
resting position computed by the hard-drop loop. -/
def GhostSpec (board : Board) (piece : Tetromino) (pos : Pos) : Prop :=
  (calculateGhostPosition board piece pos).x = pos.x ∧
  pos.y ≤ (calculateGhostPosition board piece pos).y ∧
  isValidPosition board piece (calculateGhostPosition board piece pos) = true ∧
  isValidPosition board piece
    ⟨(calculateGhostPosition board piece pos).x,
     (calculateGhostPosition board piece pos).y + 1⟩ = false ∧
  calculateGhostPosition board piece pos = (hardDropRest board piece pos).1

/-- Frame property of the board write of a lock: a board cell receives the
piece color exactly when some occupied shape cell lands on it, and every other
cell is unchanged; `coversCell` is spelled out as the existence of such a
shape cell. -/
def MergeFrameSpec (board : Board) (piece : Tetromino) (pos : Pos) (r c : Nat) : Prop :=
  (cellNat (mergeBoard board piece pos) r c =
    if coversCell piece.shape pos r c then some piece.color else cellNat board r c) ∧
  (coversCell piece.shape pos r c = true ↔
    ∃ sy sx : Nat, shapeCell piece.shape sy sx ≠ 0 ∧
      pos.y + (sy : Int) = (r : Int) ∧ pos.x + (sx : Int) = (c : Int))

/-- Linear search returns the first match: the found element sits at some index, satisfies the predicate, and every earlier element fails it. -/
theorem find?_first {α : Type} (p : α → Bool) :
    ∀ (l : List α) (b : α), l.find? p = some b →
      ∃ i, ∃ h : i < l.length, l.get ⟨i, h⟩ = b ∧ p b = true ∧
        ∀ j, (hj : j < i) → p (l.get ⟨j, Nat.lt_trans hj h⟩) = false := by
  intro l
  induction l with
  | nil => intro b hb; simp [List.find?] at hb
  | cons a t ih =>
    intro b hb
    by_cases ha : p a
    · rw [List.find?_cons_of_pos _ ha] at hb
      obtain rfl : a = b := by simpa using hb
      exact ⟨0, by simp, rfl, ha, fun j hj => absurd hj (Nat.not_lt_zero j)⟩
    · rw [List.find?_cons_of_neg _ (by simpa using ha)] at hb
      obtain ⟨i, h, hget, hpb, hprev⟩ := ih b hb
      refine ⟨i + 1, by simpa using Nat.succ_lt_succ h, by simpa using hget, hpb, ?_⟩
      intro j hj
      cases j with
      | zero => simpa using ha
      | succ j' =>
        have hj' : j' < i := Nat.lt_of_succ_lt_succ hj
        simpa using hprev j' hj'

/-- A spawn attempt never touches the hold-eligibility flag, in either branch. -/
theorem spawnOnBoard_canHold (checkBoard : Board) (st : GameState)
    (fresh newNext : Tetromino) :
    (spawnOnBoard checkBoard st fresh newNext).canHold = st.canHold := by
  unfold spawnOnBoard
  by_cases h : isValidPosition checkBoard (st.nextPiece.getD fresh)
      ⟨spawnStartX (st.nextPiece.getD fresh).shape, 0⟩ <;> simp [h]

/-- Dropping the full rows removes exactly as many rows as there are full rows. -/
theorem length_filter_not_countP (b : Board) :
    (b.filter fun row => !(rowFull row)).length =
      b.length - b.countP (fun row => rowFull row) := by
  induction b with
  | nil => rfl
  | cons r t ih =>
    have hle : t.countP (fun row => rowFull row) ≤ t.length := List.countP_le_length _
    by_cases h : rowFull r
    · simp only [List.filter_cons, List.countP_cons, h, Bool.not_true, Bool.false_eq_true,
        if_false, if_true, List.length_cons, ih]
      omega
    · simp only [List.filter_cons, List.countP_cons, h, Bool.not_false,
        Bool.false_eq_true, if_false, if_true, List.length_cons, ih]
      omega

/-- For a piece with at least one occupied cell, the validator rejects every anchor row at or below the board height. -/
theorem isValid_false_of_high (board : Board) (piece : Tetromino)
    (hc : hasCell piece.shape = true) (x y : Int) (hy : (BOARD_HEIGHT : Int) ≤ y) :
    isValidPosition board piece ⟨x, y⟩ = false := by
  unfold hasCell at hc
  rw [List.any_eq_true] at hc
  obtain ⟨sy, hsy, hrow⟩ := hc
  rw [List.any_eq_true] at hrow
  obtain ⟨sx, hsx, hcell⟩ := hrow
  cases hval : isValidPosition board piece ⟨x, y⟩ with
  | false => rfl
  | true =>
    exfalso
    unfold isValidPosition at hval
    rw [List.all_eq_true] at hval
    have h1 := hval sy hsy
    rw [List.all_eq_true] at h1
    have h2 := h1 sx hsx
    rw [if_pos (of_decide_eq_true hcell)] at h2
    dsimp only at h2
    rw [Bool.not_eq_true'] at h2
    rw [Bool.or_eq_false_iff, Bool.or_eq_false_iff, Bool.or_eq_false_iff] at h2
    have hy2 := h2.1.2
    rw [decide_eq_false_iff_not] at hy2
    have hsy0 : (0 : Int) ≤ (sy : Int) := Int.natCast_nonneg sy
    exact hy2 (by omega)

/-- Under the row bound above, the descent loop with sufficient fuel never moves up, stops at a position whose one-lower position is invalid, and preserves validity of the start. -/
theorem ghostLoop_stops (board : Board) (piece : Tetromino) (x : Int)
    (H : ∀ y' : Int, (BOARD_HEIGHT : Int) ≤ y' → isValidPosition board piece ⟨x, y'⟩ = false) :
    ∀ (fuel : Nat) (y : Int), (BOARD_HEIGHT : Int) - y ≤ (fuel : Int) →
      y ≤ ghostLoop board piece x fuel y ∧
      isValidPosition board piece ⟨x, ghostLoop board piece x fuel y + 1⟩ = false ∧
      (isValidPosition board piece ⟨x, y⟩ = true →
        isValidPosition board piece ⟨x, ghostLoop board piece x fuel y⟩ = true) := by
  intro fuel
  induction fuel with
  | zero =>
    intro y hf
    refine ⟨le_refl y, ?_, fun h => h⟩
    show isValidPosition board piece ⟨x, y + 1⟩ = false
    apply H
    simp only [Nat.cast_zero] at hf
    omega
  | succ f ih =>
    intro y hf
    unfold ghostLoop
    by_cases hv : isValidPosition board piece ⟨x, y + 1⟩ = true
    · rw [if_pos hv]
      have hy1 : ¬ ((BOARD_HEIGHT : Int) ≤ y + 1) := by
        intro hge
        rw [H (y + 1) hge] at hv
        exact Bool.false_ne_true hv
      have hf' : (BOARD_HEIGHT : Int) - (y + 1) ≤ (f : Int) := by
        push_cast at hf ⊢
        omega
      obtain ⟨h1, h2, h3⟩ := ih (y + 1) hf'
      exact ⟨by omega, h2, fun _ => h3 hv⟩
    · rw [if_neg hv]
      exact ⟨le_refl y, Bool.eq_false_iff.mpr hv, fun h => h⟩

/-- The hard-drop loop descends to the same row as the ghost loop. -/
theorem hardDropLoop_fst (board : Board) (piece : Tetromino) (x : Int) :
    ∀ (fuel : Nat) (y : Int) (d : Nat),
      (hardDropLoop board piece x fuel y d).1 = ghostLoop board piece x fuel y := by
  intro fuel
  induction fuel with
  | zero => intro y d; rfl
  | succ f ih =>
    intro y d
    unfold hardDropLoop ghostLoop
    by_cases hv : isValidPosition board piece ⟨x, y + 1⟩ = true
    · rw [if_pos hv, if_pos hv, ih]
    · rw [if_neg hv, if_neg hv]

/-- Reading a list at the freshly written in-range index yields the written value. -/
theorem getD_set_self {α : Type} (l : List α) (i : Nat) (a d : α) (h : i < l.length) :
    (l.set i a).getD i d = a := by
  rw [List.getD_eq_getElem?_getD, List.getElem?_set_self h]
  rfl

/-- Writing one index leaves reads at any other index unchanged. -/
theorem getD_set_other {α : Type} (l : List α) (i j : Nat) (a d : α) (h : i ≠ j) :
    (l.set i a).getD j d = l.getD j d := by
  rw [List.getD_eq_getElem?_getD, List.getElem?_set_ne h, ← List.getD_eq_getElem?_getD]

/-- An in-range defaulted read is a member of the list. -/
theorem getD_mem_of_lt {α : Type} (l : List α) (i : Nat) (d : α) (h : i < l.length) :
    l.getD i d ∈ l := by
  rw [List.getD_eq_getElem?_getD, List.getElem?_eq_getElem h]
  exact List.getElem_mem h

/-- Writing one cell preserves the board dimensions. -/
theorem boardWF_setCell (b : Board) (y x : Int) (color : String) (h : boardWF b) :
    boardWF (setCell b y x color) := by
  unfold setCell
  split
  · by_cases hy : y.toNat < b.length
    · refine ⟨by rw [List.length_set]; exact h.1, ?_⟩
      intro row hrow
      rcases List.mem_or_eq_of_mem_set hrow with h1 | h1
      · exact h.2 row h1
      · subst h1
        rw [List.length_set]
        exact h.2 _ (getD_mem_of_lt b y.toNat [] hy)
    · rw [List.set_eq_of_length_le (Nat.le_of_not_lt hy)]
      exact h
  · exact h

/-- Pointwise description of a single cell write on a well-formed board. -/
theorem cellNat_setCell (b : Board) (y x : Int) (color : String)
    (hwf : boardWF b) (r c : Nat) (hr : r < BOARD_HEIGHT) (hc : c < BOARD_WIDTH) :
    cellNat (setCell b y x color) r c =
      if y = (r : Int) ∧ x = (c : Int) then some color else cellNat b r c := by
  have hrb : r < b.length := by rw [hwf.1]; exact hr
  have hrow : (b.getD r []).length = BOARD_WIDTH := hwf.2 _ (getD_mem_of_lt b r [] hrb)
  unfold setCell cellNat
  by_cases hyx : 0 ≤ y ∧ 0 ≤ x
  · rw [if_pos hyx]
    by_cases heq : y = (r : Int) ∧ x = (c : Int)
    · rw [if_pos heq]
      have hyr : y.toNat = r := by omega
      have hxc : x.toNat = c := by omega
      rw [hyr, hxc]
      rw [getD_set_self _ _ _ _ hrb]
      exact getD_set_self _ _ _ _ (by rw [hrow]; exact hc)
    · rw [if_neg heq]
      by_cases hyr : y = (r : Int)
      · have hxc : x.toNat ≠ c := by omega
        have hyr' : y.toNat = r := by omega
        rw [hyr']
        rw [getD_set_self _ _ _ _ hrb]
        exact getD_set_other _ _ _ _ _ hxc
      · have hyr' : y.toNat ≠ r := by omega
        rw [getD_set_other _ _ _ _ _ hyr']
  · rw [if_neg hyx]
    rw [if_neg (fun heq => hyx ⟨by rw [heq.1]; exact Int.natCast_nonneg r,
      by rw [heq.2]; exact Int.natCast_nonneg c⟩)]

/-- Pointwise description of folding guarded cell writes of one color over a list of shape offsets: a cell holds the color exactly when some offset targets it, and is untouched otherwise. -/
theorem mergeFold_cell (pos : Pos) (color : String) (r c : Nat)
    (hr : r < BOARD_HEIGHT) (hc : c < BOARD_WIDTH) :
    ∀ (L : List (Nat × Nat)) (b : Board), boardWF b →
      cellNat (L.foldl (fun bb yx =>
          if 0 ≤ pos.y + (yx.1 : Int) then setCell bb (pos.y + yx.1) (pos.x + yx.2) color
          else bb) b) r c =
        (if L.any (fun yx => (pos.y + (yx.1 : Int) == (r : Int)) &&
            (pos.x + (yx.2 : Int) == (c : Int))) then some color
         else cellNat b r c) := by
  intro L
  induction L with
  | nil => intro b hwf; simp
  | cons p t ih =>
    intro b hwf
    rw [List.foldl_cons, List.any_cons]
    have hwf' : boardWF (if 0 ≤ pos.y + (p.1 : Int) then
        setCell b (pos.y + p.1) (pos.x + p.2) color else b) := by
      split
      · exact boardWF_setCell b _ _ color hwf
      · exact hwf
    rw [ih _ hwf']
    by_cases ht : (t.any fun yx => (pos.y + (yx.1 : Int) == (r : Int)) &&
        (pos.x + (yx.2 : Int) == (c : Int))) = true
    · rw [ht]
      simp
    · rw [Bool.eq_false_iff.mpr ht]
      simp only [Bool.or_false]
      by_cases hp : ((pos.y + (p.1 : Int) == (r : Int)) &&
          (pos.x + (p.2 : Int) == (c : Int))) = true
      · have hp' := hp
        rw [Bool.and_eq_true, beq_iff_eq, beq_iff_eq] at hp'
        simp only [Bool.false_eq_true, if_false]
        rw [if_pos (show (0 : Int) ≤ pos.y + (p.1 : Int) from by
          rw [hp'.1]; exact Int.natCast_nonneg r)]
        rw [cellNat_setCell _ _ _ _ hwf r c hr hc]
        rw [if_pos hp', hp]
        simp
      · rw [Bool.eq_false_iff.mpr hp]
        simp only [Bool.false_eq_true, if_false]
        have hne : ¬(pos.y + (p.1 : Int) = (r : Int) ∧ pos.x + (p.2 : Int) = (c : Int)) := by
          intro hand
          apply hp
          rw [Bool.and_eq_true, beq_iff_eq, beq_iff_eq]
          exact hand
        split
        · rw [cellNat_setCell _ _ _ _ hwf r c hr hc]
          rw [if_neg hne]
        · rfl

/-- A pair of indices is listed among the occupied cells exactly when the shape holds a nonzero entry there. -/
theorem mem_occupiedCells_iff (s : Shape) (sy sx : Nat) :
    (sy, sx) ∈ occupiedCells s ↔ shapeCell s sy sx ≠ 0 := by
  unfold occupiedCells shapeCell
  rw [List.mem_flatMap]
  constructor
  · rintro ⟨y, hy, hmem⟩
    rw [List.mem_map] at hmem
    obtain ⟨x, hx, hpair⟩ := hmem
    have hpair' := Prod.mk.injEq y x sy sx ▸ hpair
    obtain ⟨rfl, rfl⟩ : y = sy ∧ x = sx := ⟨hpair'.1, hpair'.2⟩
    rw [List.mem_filter] at hx
    exact of_decide_eq_true hx.2
  · intro hcell
    have hsy : sy < s.length := by
      by_contra hge
      apply hcell
      rw [List.getD_eq_default _ _ (Nat.le_of_not_lt hge)]
      rfl
    have hsx : sx < (s.getD sy []).length := by
      by_contra hge
      apply hcell
      exact List.getD_eq_default _ _ (Nat.le_of_not_lt hge)
    exact ⟨sy, List.mem_range.mpr hsy,
      List.mem_map.mpr ⟨sx, List.mem_filter.mpr
        ⟨List.mem_range.mpr hsx, decide_eq_true hcell⟩, rfl⟩⟩

/-- Unfolding of the cover test into the existence of an occupied shape cell landing on the given board cell. -/
theorem coversCell_iff (s : Shape) (pos : Pos) (r c : Nat) :
    coversCell s pos r c = true ↔
      ∃ sy sx : Nat, shapeCell s sy sx ≠ 0 ∧
        pos.y + (sy : Int) = (r : Int) ∧ pos.x + (sx : Int) = (c : Int) := by
  unfold coversCell
  rw [List.any_eq_true]
  constructor
  · rintro ⟨yx, hmem, hhit⟩
    rw [Bool.and_eq_true, beq_iff_eq, beq_iff_eq] at hhit
    exact ⟨yx.1, yx.2, (mem_occupiedCells_iff s yx.1 yx.2).mp hmem, hhit.1, hhit.2⟩
  · rintro ⟨sy, sx, hcell, hy, hx⟩
    refine ⟨(sy, sx), (mem_occupiedCells_iff s sy sx).mpr hcell, ?_⟩
    rw [Bool.and_eq_true, beq_iff_eq, beq_iff_eq]
    exact ⟨hy, hx⟩

/-- C1: on the lock that takes the cumulative lines from 9 to 10, `checkLines` recomputes the level from the pre-clear count 9, so the level stays 1 and the speed stays 1000, although the claimed invariant demands `level = 10 / 10 + 1 = 2` and speed 900. -/
theorem checkLines_level_from_stale_lines :
    (checkLines stLinesNine boardOneFull).lines = 10 ∧
    (checkLines stLinesNine boardOneFull).level = 1 ∧
    (checkLines stLinesNine boardOneFull).speed = 1000 ∧
    (checkLines stLinesNine boardOneFull).lines / 10 + 1 = 2 := by
  refine ⟨rfl, rfl, rfl, rfl⟩

/-- C2: for every spawn attempt, when the validator rejects the queued piece at its centered spawn position the game-over flag is set and no piece is installed (active piece, position, and queue are untouched); when it accepts, the piece becomes active at that position. -/
theorem spawn_rejected_gameOver (checkBoard : Board) (st : GameState)
    (fresh newNext : Tetromino) : SpawnSpec checkBoard st fresh newNext := by
  unfold SpawnSpec spawnOnBoard
  by_cases h : isValidPosition checkBoard (st.nextPiece.getD fresh)
      ⟨spawnStartX (st.nextPiece.getD fresh).shape, 0⟩
  · simp [h]
  · simp [h]

/-- C3 counterexample: for the `T` shape, the rotated cell at row 0, column 1 differs from the old cell at row 1, column `R - 1 - 0`, refuting the claimed index formula. -/
theorem rotateShape_claim_counterexample :
    ¬(shapeCell (rotateShape tetrominoT.shape) 0 1 =
      shapeCell tetrominoT.shape 1 (tetrominoT.shape.length - 1 - 0)) := by decide

/-- C3 amended: for every shape, the rotated cell at row `r`, column `c` equals the old cell at row `R - 1 - c`, column `r` (a clockwise quarter turn), for `r` below the first row's length and `c` below the row count `R`. -/
theorem rotateShape_cell (s : Shape) (r c : Nat)
    (hr : r < (s.headD []).length) (hc : c < s.length) :
    shapeCell (rotateShape s) r c = shapeCell s (s.length - 1 - c) r := by
  unfold shapeCell rotateShape
  have h1 : ((List.range (s.headD []).length).map
      (fun i => (s.map fun row => row.getD i 0).reverse)).getD r [] =
      (s.map fun row => row.getD r 0).reverse := by
    rw [List.getD_eq_getElem?_getD]
    rw [List.getElem?_map]
    rw [List.getElem?_range hr]
    rfl
  rw [h1]
  have hc' : c < (List.map (fun row => row.getD r 0) s).reverse.length := by simp [hc]
  have hc2 : s.length - 1 - c < s.length := by omega
  rw [List.getD_eq_getElem?_getD, List.getElem?_eq_getElem hc',
      List.getElem_reverse, List.getElem_map]
  rw [show List.getD s (s.length - 1 - c) [] = s[s.length - 1 - c] from by
    rw [List.getD_eq_getElem?_getD, List.getElem?_eq_getElem hc2]; rfl]
  simp

/-- Witness for C3's amended statement at the `T` shape. -/
theorem rotateShape_cell_witness :
    shapeCell (rotateShape tetrominoT.shape) 0 1 =
      shapeCell tetrominoT.shape (tetrominoT.shape.length - 1 - 1) 0 :=
  rotateShape_cell tetrominoT.shape 0 1 (by decide) (by decide)

/-- C4 counterexample: pressing soft drop before the game has started, with no active piece, still adds one point, although the claim demands zero points for a no-op action. -/
theorem softDrop_point_without_piece :
    initialState.gameStarted = false ∧ initialState.currentPiece = none ∧
    (softDropAction initialState tetrominoT tetrominoI).score = initialState.score + 1 :=
  ⟨rfl, rfl, rfl⟩

/-- C4 amended: the soft-drop key adds exactly one point on top of whatever the shared move-down transition does, unconditionally - also when the move is rejected or the action is a no-op; the move-down transition itself (the gravity tick) adds no point on an accepted step, so an accepted player soft drop nets exactly one point. -/
theorem softDrop_score_unconditional (st : GameState) (fresh newNext : Tetromino) :
    SoftDropScoreSpec st fresh newNext := by
  constructor
  · rfl
  · intro piece hp ho hpa hv
    unfold moveDown
    simp [hp, ho, hpa, hv]

/-- C5 counterexample: a successful spawn (the piece becomes active, no game over) leaves a false hold-eligibility flag false, refuting that every successful spawn re-enables hold. -/
theorem spawn_keeps_canHold_false :
    (spawnNewPiece stNoHold tetrominoI tetrominoO).currentPiece = some tetrominoT ∧
    (spawnNewPiece stNoHold tetrominoI tetrominoO).gameOver = false ∧
    (spawnNewPiece stNoHold tetrominoI tetrominoO).canHold = false :=
  ⟨rfl, rfl, rfl⟩

/-- C5 amended: spawning leaves `canHold` unchanged; it is the lock (`mergePiece`) that re-enables it; an effective hold action sets it false in both the swap branch and the empty-hold branch, so it stays false from a hold until the next lock. -/
theorem hold_eligibility (st : GameState) (fresh newNext : Tetromino) :
    HoldEligibilitySpec st fresh newNext := by
  refine ⟨spawnOnBoard_canHold _ _ _ _, ?_, ?_⟩
  · intro h
    obtain ⟨piece, hp⟩ := Option.isSome_iff_exists.mp h
    unfold mergePiece
    simp [hp]
  · intro h hch ho hpa
    obtain ⟨piece, hp⟩ := Option.isSome_iff_exists.mp h
    unfold holdPiece
    simp only [hp, ho, hpa, hch, Option.isNone_some, Bool.not_true, Bool.false_or,
      Bool.or_false, Bool.or_self, if_false]
    cases hh : st.heldPiece with
    | some temp => rfl
    | none => exact spawnOnBoard_canHold st.board _ fresh newNext

/-- C6: with an active piece on a running unpaused game, the rotation action commits the rotated piece at the current position displaced by the first kick offset of the fixed ordered list that the validator accepts, with every earlier offset rejected; when all six offsets fail, the state is unchanged. -/
theorem rotate_kick_order (st : GameState) (piece : Tetromino)
    (hp : st.currentPiece = some piece) (ho : st.gameOver = false) (hpa : st.paused = false) :
    RotateKickSpec st piece := by
  unfold RotateKickSpec
  have hrot : rotate st =
      match kicks.find? (fun k => tryKick st (rotatePiece piece) k) with
      | some k => commitKick st (rotatePiece piece) k
      | none => st := by
    unfold rotate
    simp [hp, ho, hpa]
  cases hf : kicks.find? (fun k => tryKick st (rotatePiece piece) k) with
  | none =>
    left
    refine ⟨fun k hk => ?_, by rw [hrot, hf]⟩
    have := List.find?_eq_none.mp hf k hk
    simpa using this
  | some k =>
    right
    obtain ⟨i, h, hget, hpk, hprev⟩ := find?_first _ kicks k hf
    exact ⟨i, h, by rw [hget]; exact hpk, hprev, by rw [hrot, hf, hget]⟩

/-- Witness for C6 at a concrete running state with an active `T` piece. -/
theorem rotate_kick_order_witness : RotateKickSpec stPlaying tetrominoT :=
  rotate_kick_order stPlaying tetrominoT rfl rfl rfl

/-- C7: a lock clearing between 1 and 4 lines adds exactly `(table[count] + combo * 50) * level` points, where `combo` is the value after its increment for this clear and `level` the value before any level change of this clear; the combo increments by one and the count is added to the cumulative lines. -/
theorem checkLines_score_delta (st : GameState) (b : Board)
    (h1 : 1 ≤ b.countP (fun row => rowFull row))
    (_h4 : b.countP (fun row => rowFull row) ≤ 4) :
    ScoreDeltaSpec st b := by
  have hpos : 0 < (clearFullRows b).2 := h1
  refine ⟨?_, ?_, ?_⟩ <;>
  · unfold checkLines
    dsimp only
    rw [if_pos hpos]
    split <;> rfl

/-- Witness for C7: two cleared lines at combo 0 and level 1 add 350 points. -/
theorem checkLines_score_delta_witness : ScoreDeltaSpec initialState boardTwoFull :=
  checkLines_score_delta initialState boardTwoFull (by decide) (by decide)

/-- C8: on a board of full height containing exactly `k` full rows, the clearing pass reports `k`, keeps the non-full rows in their original relative order, prepends `k` empty rows at the top, and restores the height to 20. -/
theorem clearFullRows_spec (b : Board) (hb : b.length = BOARD_HEIGHT) : ClearRowsSpec b := by
  have hle : b.countP (fun row => rowFull row) ≤ b.length := List.countP_le_length _
  have hkept := length_filter_not_countP b
  refine ⟨rfl, ?_, ?_⟩
  · show List.replicate (BOARD_HEIGHT - (b.filter fun row => !(rowFull row)).length)
        createEmptyRow ++ _ = _
    rw [hkept, hb]
    congr 2
    omega
  · show (List.replicate (BOARD_HEIGHT - (b.filter fun row => !(rowFull row)).length)
        createEmptyRow ++ _).length = BOARD_HEIGHT
    rw [List.length_append, List.length_replicate, hkept, hb]
    omega

/-- Witness for C8 on a board with two full bottom rows. -/
theorem clearFullRows_spec_witness : ClearRowsSpec boardTwoFull :=
  clearFullRows_spec boardTwoFull (by decide)

/-- C9: for every board, piece with at least one occupied cell, and validator-accepted start, the ghost projection keeps the column, never moves up, lands on an accepted position whose one-lower position is rejected, and equals the resting position of the hard-drop loop from the same start. -/
theorem ghost_projection_spec (board : Board) (piece : Tetromino) (pos : Pos)
    (hc : hasCell piece.shape = true)
    (hv : isValidPosition board piece pos = true) : GhostSpec board piece pos := by
  have H : ∀ y' : Int, (BOARD_HEIGHT : Int) ≤ y' →
      isValidPosition board piece ⟨pos.x, y'⟩ = false :=
    fun y' hy' => isValid_false_of_high board piece hc pos.x y' hy'
  have hfuel : (BOARD_HEIGHT : Int) - pos.y ≤ (ghostFuel pos : Int) := by
    unfold ghostFuel
    have h := Int.self_le_toNat ((BOARD_HEIGHT : Int) + 1 - pos.y)
    omega
  obtain ⟨h1, h2, h3⟩ := ghostLoop_stops board piece pos.x H (ghostFuel pos) pos.y hfuel
  exact ⟨rfl, h1, h3 hv, h2, by
    unfold calculateGhostPosition hardDropRest
    dsimp only
    rw [hardDropLoop_fst]⟩

/-- Witness for C9: a `T` piece dropped on the empty board from the spawn position. -/
theorem ghost_projection_spec_witness : GhostSpec createEmptyBoard tetrominoT ⟨4, 0⟩ :=
  ghost_projection_spec createEmptyBoard tetrominoT ⟨4, 0⟩ (by decide) (by decide)

/-- C10: locking writes the piece color exactly into the board cells lying under an occupied shape cell (necessarily at nonnegative rows), and every other board cell keeps the value it had before the lock, stated before line clearing runs. -/
theorem mergeBoard_frame (board : Board) (piece : Tetromino) (pos : Pos)
    (hwf : boardWF board) (_hv : isValidPosition board piece pos = true)
    (r c : Nat) (hr : r < BOARD_HEIGHT) (hc : c < BOARD_WIDTH) :
    MergeFrameSpec board piece pos r c := by
  constructor
  · unfold mergeBoard coversCell
    exact mergeFold_cell pos piece.color r c hr hc (occupiedCells piece.shape) board hwf
  · exact coversCell_iff piece.shape pos r c

/-- Witness for C10: an `O` piece locked at the bottom-left corner of the empty board. -/
theorem mergeBoard_frame_witness : MergeFrameSpec createEmptyBoard tetrominoO ⟨0, 18⟩ 18 0 :=
  mergeBoard_frame createEmptyBoard tetrominoO ⟨0, 18⟩
    ⟨by decide, by decide⟩ (by decide) 18 0 (by decide) (by decide)
